import Mathlib

/-!
Verification of the `pools` package (buffer.go): a shallow embedding of the
width calculator (`totalWidth` and its threshold table `cache`), the
placeholder writers (`WriteGroups` / `writeGroup` / `WriteInterval`), the
capacity reservation (`grow`, including its bitwise non-negative clamp), and
the Buffer lifetime protocol (`UnsafeBytes` / `PutBuffer`).

Go `int` values are modelled as unbounded `Int` (the package only ever
handles widths and placeholder indices far below the 64-bit range); the one
place where machine-width two's-complement behaviour is itself the subject
of a claim — the bitwise clamp in `grow` — is modelled with `Int`'s exact
two's-complement bitwise operations (`Int.land`, `Int.lnot`, arithmetic
shift), which agree with the 64-bit machine operations on all in-range
values.  Buffer output is modelled as the `List Char` appended to the
buffer; errors are modelled by `Option` (`none` = error returned, and
nothing appended).
-/

/-- Decimal digit characters of a natural number, most significant first,
with explicit fuel so the recursion is structural (any fuel larger than `n`
gives the same answer).  This models the decimal rendering performed by
`strconv.Itoa` / `strconv.FormatInt` for non-negative values. -/
def decDigitsAux : Nat → Nat → List Char
  | 0, _ => []
  | f + 1, n =>
    if n < 10 then [Nat.digitChar n]
    else decDigitsAux f (n / 10) ++ [Nat.digitChar (n % 10)]

/-- Decimal digits of a natural number, most significant first. -/
def decDigits (n : Nat) : List Char := decDigitsAux (n + 1) n

theorem decDigitsAux_mono :
    ∀ f g n, n < f → n < g → decDigitsAux f n = decDigitsAux g n := by
  intro f
  induction f with
  | zero => intro g n h _; omega
  | succ f ih =>
    intro g n hf hg
    cases g with
    | zero => omega
    | succ g =>
      simp only [decDigitsAux]
      by_cases h10 : n < 10
      · simp [h10]
      · have hd : n / 10 < n := Nat.div_lt_self (by omega) (by omega)
        rw [if_neg h10, if_neg h10, ih g (n / 10) (by omega) (by omega)]

/-- Unfolding equation for `decDigits` free of the fuel parameter. -/
theorem decDigits_eq (n : Nat) :
    decDigits n =
      if n < 10 then [Nat.digitChar n]
      else decDigits (n / 10) ++ [Nat.digitChar (n % 10)] := by
  by_cases h10 : n < 10
  · simp [decDigits, decDigitsAux, h10]
  · rw [if_neg h10]
    show decDigitsAux (n + 1) n = _
    have hd : n / 10 < n := Nat.div_lt_self (by omega) (by omega)
    simp only [decDigitsAux, if_neg h10]
    rw [decDigitsAux_mono n (n / 10 + 1) (n / 10) (by omega) (by omega)]
    rfl

/-- Number of base-10 digits of `n` (length of its decimal rendering). -/
def numDigits (n : Nat) : Nat := (decDigits n).length

theorem numDigits_eq (n : Nat) :
    numDigits n = if n < 10 then 1 else numDigits (n / 10) + 1 := by
  unfold numDigits
  rw [decDigits_eq]
  by_cases h10 : n < 10 <;> simp [h10]

/-- Every number in the `k`-digit bracket `[10 ^ (k - 1), 10 ^ k)` has
exactly `k` decimal digits. -/
theorem numDigits_bracket :
    ∀ k, 1 ≤ k → ∀ i, 10 ^ (k - 1) ≤ i → i < 10 ^ k → numDigits i = k := by
  intro k
  induction k with
  | zero => omega
  | succ k ih =>
    intro _ i hlo hhi
    by_cases hk : k = 0
    · subst hk
      rw [numDigits_eq, if_pos (by simpa using hhi)]
    · have hk1 : 1 ≤ k := by omega
      have h10 : ¬ i < 10 := by
        have : (10 : Nat) ≤ 10 ^ k := by
          calc (10 : Nat) = 10 ^ 1 := (pow_one 10).symm
          _ ≤ 10 ^ k := Nat.pow_le_pow_right (by omega) hk1
        simp only [Nat.succ_sub_one] at hlo
        omega
      rw [numDigits_eq, if_neg h10]
      have hpow : 10 ^ (k - 1) * 10 = 10 ^ k := by
        rw [← pow_succ]
        congr 1
        omega
      have hlo' : 10 ^ (k - 1) ≤ i / 10 := by
        rw [Nat.le_div_iff_mul_le (by omega)]
        simp only [Nat.succ_sub_one] at hlo
        rw [hpow]
        exact hlo
      have hhi' : i / 10 < 10 ^ k := by
        rw [Nat.div_lt_iff_lt_mul (by omega)]
        calc i < 10 ^ (k + 1) := hhi
        _ = 10 ^ k * 10 := by rw [pow_succ]
      rw [ih hk1 (i / 10) hlo' hhi']

/-- Cumulative digit count of the range `[1, n]` — the brute-force sum the
spec describes. -/
def sumDigits (n : Nat) : Nat := ∑ i ∈ Finset.Icc 1 n, numDigits i

theorem sumDigits_split (a b : Nat) (hab : a ≤ b) :
    sumDigits b = sumDigits a + ∑ i ∈ Finset.Ioc a b, numDigits i := by
  unfold sumDigits
  rw [show Finset.Icc 1 b = Finset.Ioc 0 b from rfl,
    show Finset.Icc 1 a = Finset.Ioc 0 a from rfl]
  exact (Finset.sum_Ioc_consecutive (fun i => numDigits i) (Nat.zero_le a) hab).symm

/-- Digit sums over a range contained in a single digit-count bracket are
linear: `(b - a)` numbers of `k` digits each. -/
theorem sumDigits_bracket (k a b : Nat) (hk : 1 ≤ k)
    (ha : 10 ^ (k - 1) - 1 ≤ a) (hb : b ≤ 10 ^ k - 1) (hab : a ≤ b) :
    sumDigits b = sumDigits a + (b - a) * k := by
  rw [sumDigits_split a b hab]
  congr 1
  have hconst : ∀ i ∈ Finset.Ioc a b, numDigits i = k := by
    intro i hi
    rw [Finset.mem_Ioc] at hi
    have hp : 1 ≤ 10 ^ (k - 1) := Nat.one_le_pow _ _ (by omega)
    have hq : 10 ^ k ≥ 1 := Nat.one_le_pow _ _ (by omega)
    exact numDigits_bracket k hk i (by omega) (by omega)
  rw [Finset.sum_congr rfl hconst, Finset.sum_const, Nat.card_Ioc, smul_eq_mul]

theorem sumDigits_c0 : sumDigits 0 = 0 := by decide

theorem sumDigits_c1 : sumDigits 9 = 9 := by decide

theorem sumDigits_c2 : sumDigits 99 = 189 := by
  rw [sumDigits_bracket 2 9 99 (by norm_num) (by norm_num) (by norm_num) (by norm_num),
    sumDigits_c1]

theorem sumDigits_c3 : sumDigits 999 = 2889 := by
  rw [sumDigits_bracket 3 99 999 (by norm_num) (by norm_num) (by norm_num) (by norm_num),
    sumDigits_c2]

theorem sumDigits_c4 : sumDigits 9999 = 38889 := by
  rw [sumDigits_bracket 4 999 9999 (by norm_num) (by norm_num) (by norm_num) (by norm_num),
    sumDigits_c3]

theorem sumDigits_c5 : sumDigits 99999 = 488889 := by
  rw [sumDigits_bracket 5 9999 99999 (by norm_num) (by norm_num) (by norm_num) (by norm_num),
    sumDigits_c4]

theorem sumDigits_c6 : sumDigits 999999 = 5888889 := by
  rw [sumDigits_bracket 6 99999 999999 (by norm_num) (by norm_num) (by norm_num) (by norm_num),
    sumDigits_c5]

theorem sumDigits_c7 : sumDigits 9999999 = 68888889 := by
  rw [sumDigits_bracket 7 999999 9999999 (by norm_num) (by norm_num) (by norm_num) (by norm_num),
    sumDigits_c6]

theorem sumDigits_c8 : sumDigits 99999999 = 788888889 := by
  rw [sumDigits_bracket 8 9999999 99999999 (by norm_num) (by norm_num) (by norm_num)
    (by norm_num), sumDigits_c7]

theorem sumDigits_c9 : sumDigits 999999999 = 8888888889 := by
  rw [sumDigits_bracket 9 99999999 999999999 (by norm_num) (by norm_num) (by norm_num)
    (by norm_num), sumDigits_c8]

theorem sumDigits_c10 : sumDigits 9999999999 = 98888888889 := by
  rw [sumDigits_bracket 10 999999999 9999999999 (by norm_num) (by norm_num) (by norm_num)
    (by norm_num), sumDigits_c9]

theorem sumDigits_c11 : sumDigits 99999999999 = 1088888888889 := by
  rw [sumDigits_bracket 11 9999999999 99999999999 (by norm_num) (by norm_num) (by norm_num)
    (by norm_num), sumDigits_c10]

theorem sumDigits_c12 : sumDigits 999999999999 = 11888888888889 := by
  rw [sumDigits_bracket 12 99999999999 999999999999 (by norm_num) (by norm_num) (by norm_num)
    (by norm_num), sumDigits_c11]

theorem sumDigits_c13 : sumDigits 9999999999999 = 128888888888889 := by
  rw [sumDigits_bracket 13 999999999999 9999999999999 (by norm_num) (by norm_num) (by norm_num)
    (by norm_num), sumDigits_c12]

theorem sumDigits_c14 : sumDigits 99999999999999 = 1388888888888889 := by
  rw [sumDigits_bracket 14 9999999999999 99999999999999 (by norm_num) (by norm_num)
    (by norm_num) (by norm_num), sumDigits_c13]

theorem sumDigits_c15 : sumDigits 999999999999999 = 14888888888888889 := by
  rw [sumDigits_bracket 15 99999999999999 999999999999999 (by norm_num) (by norm_num)
    (by norm_num) (by norm_num), sumDigits_c14]

theorem sumDigits_c16 : sumDigits 9999999999999999 = 158888888888888889 := by
  rw [sumDigits_bracket 16 999999999999999 9999999999999999 (by norm_num) (by norm_num)
    (by norm_num) (by norm_num), sumDigits_c15]

theorem sumDigits_c17 : sumDigits 99999999999999999 = 1688888888888888889 := by
  rw [sumDigits_bracket 17 9999999999999999 99999999999999999 (by norm_num) (by norm_num)
    (by norm_num) (by norm_num), sumDigits_c16]

/-- The static threshold table from buffer.go: entry `i` is
`(pow, sum) = (10 ^ i - 1, cumulative width of [1, 10 ^ i - 1])`. -/
def cache : List (Int × Int) :=
  [(0, 0), (9, 9), (99, 189), (999, 2889), (9999, 38889), (99999, 488889),
   (999999, 5888889), (9999999, 68888889), (99999999, 788888889),
   (999999999, 8888888889), (9999999999, 98888888889),
   (99999999999, 1088888888889), (999999999999, 11888888888889),
   (9999999999999, 128888888888889), (99999999999999, 1388888888888889),
   (999999999999999, 14888888888888889), (9999999999999999, 158888888888888889),
   (99999999999999999, 1688888888888888889)]

/-- The scan loop at the end of `totalWidth` (`for i := 3; ; i++`).  The
fuel argument only bounds the recursion: `totalWidth` enters the loop only
when `n ≤ cache[17].1`, so the loop always returns within the table (in Go,
running past the table would panic on the index, which never happens). -/
def scanW (n add : Int) : Nat → Nat → Int
  | _, 0 => 0
  | i, f + 1 =>
    if n ≤ (cache.getD i (0, 0)).1 then
      (n - (cache.getD (i - 1) (0, 0)).1) * (i : Int) + (cache.getD (i - 1) (0, 0)).2
        + n * add
    else scanW n add (i + 1) f

/-- Embedding of `totalWidth` from buffer.go: cumulative length of all
numbers in `[1, n]`, with `add` added per number. -/
def totalWidth (n add : Int) : Int :=
  if n ≤ 0 then add
  else if n < 10 then n + n * add
  else if n < 100 then n * 2 - 9 + n * add
  else if (cache.getD (cache.length - 1) (0, 0)).1 < n then 0
  else scanW n add 3 15

theorem cache_getD (j : Nat) (hj : j ≤ 17) :
    cache.getD j (0, 0) =
      (((10 : Int) ^ j - 1), ((sumDigits (10 ^ j - 1) : Nat) : Int)) := by
  interval_cases j <;>
    simp [cache] <;>
    norm_num [sumDigits_c0, sumDigits_c1, sumDigits_c2, sumDigits_c3, sumDigits_c4,
      sumDigits_c5, sumDigits_c6, sumDigits_c7, sumDigits_c8, sumDigits_c9,
      sumDigits_c10, sumDigits_c11, sumDigits_c12, sumDigits_c13, sumDigits_c14,
      sumDigits_c15, sumDigits_c16, sumDigits_c17]

theorem scanW_eq (n add : Int) :
    ∀ f i, i + f = 18 → 3 ≤ i → ((10 : Int) ^ (i - 1) - 1) < n →
      n ≤ 99999999999999999 →
      scanW n add i f = (sumDigits n.toNat : Int) + n * add := by
  intro f
  induction f with
  | zero =>
    intro i hif h3 hlo hhi
    have hi : i = 18 := by omega
    subst hi
    norm_num at hlo
    omega
  | succ f ih =>
    intro i hif h3 hlo hhi
    have hi17 : i ≤ 17 := by omega
    simp only [scanW]
    rw [cache_getD i hi17, cache_getD (i - 1) (by omega)]
    by_cases hc : n ≤ (10 : Int) ^ i - 1
    · rw [if_pos hc]
      have hpow1 : (1 : Nat) ≤ 10 ^ (i - 1) := Nat.one_le_pow _ _ (by omega)
      have hnpos : (0 : Int) < n := by
        have : (1 : Int) ≤ (10 : Int) ^ (i - 1) := one_le_pow₀ (by norm_num)
        omega
      have hm : ((n.toNat : Int)) = n := Int.toNat_of_nonneg (le_of_lt hnpos)
      have hcastpow : (((10 : Nat) ^ (i - 1) : Nat) : Int) = (10 : Int) ^ (i - 1) := by
        push_cast
        ring
      have hcastpow2 : (((10 : Nat) ^ i : Nat) : Int) = (10 : Int) ^ i := by
        push_cast
        ring
      have ha' : (((10 : Nat) ^ (i - 1) - 1 : Nat) : Int) = (10 : Int) ^ (i - 1) - 1 := by
        rw [Nat.cast_sub hpow1, hcastpow]
        norm_num
      have hab : (10 : Nat) ^ (i - 1) - 1 ≤ n.toNat := by
        have := hlo
        rw [← ha', ← hm] at this
        omega
      have hb : n.toNat ≤ 10 ^ i - 1 := by
        have hpow2 : (1 : Nat) ≤ 10 ^ i := Nat.one_le_pow _ _ (by omega)
        have hx : n ≤ ((10 ^ i - 1 : Nat) : Int) := by
          rw [Nat.cast_sub hpow2, hcastpow2]
          exact_mod_cast hc
        omega
      have hbr := sumDigits_bracket i (10 ^ (i - 1) - 1) n.toNat (by omega) (le_refl _) hb hab
      have hbr' : (sumDigits n.toNat : Int) =
          (sumDigits (10 ^ (i - 1) - 1) : Int) + (n - ((10 : Int) ^ (i - 1) - 1)) * i := by
        rw [hbr]
        push_cast [Nat.cast_sub hab]
        rw [ha', hm]
      rw [hbr']
      ring
    · rw [if_neg hc]
      have hne17 : i ≠ 17 := by
        intro h
        subst h
        norm_num at hc
        omega
      have hlo' : ((10 : Int) ^ (i + 1 - 1) - 1) < n := by
        push_neg at hc
        simpa using hc
      exact ih (i + 1) (by omega) (by omega) hlo' hhi

/-- Key functional-correctness fact: inside the table's range, `totalWidth`
computes the exact cumulative digit count plus the per-item extra. -/
theorem totalWidth_eq_sum (n add : Int) (h1 : 1 ≤ n) (h2 : n ≤ 99999999999999999) :
    totalWidth n add = (sumDigits n.toNat : Int) + n * add := by
  unfold totalWidth
  rw [if_neg (by omega)]
  by_cases hA : n < 10
  · rw [if_pos hA]
    have hb := sumDigits_bracket 1 0 n.toNat (by norm_num) (by norm_num) (by omega) (by omega)
    rw [sumDigits_c0] at hb
    simp only [Nat.sub_zero, Nat.mul_one, Nat.zero_add] at hb
    have hm : ((n.toNat : Int)) = n := Int.toNat_of_nonneg (by omega)
    rw [hb, hm]
  · by_cases hB : n < 100
    · rw [if_neg hA, if_pos hB]
      have hb := sumDigits_bracket 2 9 n.toNat (by norm_num) (by norm_num) (by omega) (by omega)
      rw [sumDigits_c1] at hb
      have hm : ((n.toNat : Int)) = n := Int.toNat_of_nonneg (by omega)
      have h9 : (9 : Nat) ≤ n.toNat := by omega
      rw [hb]
      push_cast [Nat.cast_sub h9]
      rw [hm]
      ring
    · rw [if_neg hA, if_neg hB]
      rw [show cache.length - 1 = 17 from by decide, cache_getD 17 (le_refl _)]
      rw [if_neg (by norm_num; omega)]
      exact scanW_eq n add 15 3 (by omega) (by omega) (by norm_num; omega) h2

/-- C1: for every `n` with `1 ≤ n ≤ 99999999999999999` (the largest
threshold in the width table) and every `extraPerItem ≥ 0`,
`totalWidth n extraPerItem` equals the brute-force sum over `i ∈ [1, n]` of
`(number of base-10 digits of i) + extraPerItem`; and for every `n ≤ 0` it
returns `extraPerItem`. -/
theorem claim_C1_totalWidth_bruteforce (n add : Int) (hadd : 0 ≤ add) :
    (1 ≤ n → n ≤ 99999999999999999 →
      totalWidth n add = ∑ i ∈ Finset.Icc 1 n.toNat, ((numDigits i : Int) + add)) ∧
    (n ≤ 0 → totalWidth n add = add) := by
  constructor
  · intro h1 h2
    rw [totalWidth_eq_sum n add h1 h2, Finset.sum_add_distrib, Finset.sum_const,
      Nat.card_Icc, nsmul_eq_mul]
    have hm : ((n.toNat : Int)) = n := Int.toNat_of_nonneg (by omega)
    have hsum : ((sumDigits n.toNat : Nat) : Int) =
        ∑ i ∈ Finset.Icc 1 n.toNat, (numDigits i : Int) := by
      unfold sumDigits
      push_cast
      rfl
    rw [hsum, show (n.toNat + 1 - 1 : Nat) = n.toNat from by omega, hm]
  · intro h0
    unfold totalWidth
    rw [if_pos h0]

/-- Witness for C1 at `n = 5`, `extraPerItem = 3`. -/
theorem claim_C1_totalWidth_bruteforce_witness :
    totalWidth 5 3 = ∑ i ∈ Finset.Icc 1 (5 : Int).toNat, ((numDigits i : Int) + 3) ∧
      totalWidth 5 3 = 20 :=
  ⟨(claim_C1_totalWidth_bruteforce 5 3 (by norm_num)).1 (by norm_num) (by norm_num),
    by decide⟩

/-- The `intSize` shift amount from `grow`:
`(32 << (^uint(0) >> 63)) - 1 = 63` on a 64-bit platform (the package only
compiles on 64-bit platforms, as the larger `cache` literals overflow a
32-bit int). -/
def intSize : Nat := 63

/-- The bitwise non-negative clamp used by `grow`: `x & ^(x >> intSize)`.
`Int.land` / `Int.lnot` / arithmetic shift are the exact two's-complement
semantics of the corresponding 64-bit machine operations on all in-range
values. -/
def clampNonNeg (x : Int) : Int := Int.land x (Int.lnot (x >>> (intSize : Int)))

/-- The capacity reservation computed by `grow(start, end, num)`:
`width := totalWidth(end-start+1, 3)` (3 extra bytes per number for
`'$'` and `", "`), then `(width+2)*num - 2` clamped to non-negative. -/
def growReserve (start e num : Int) : Int :=
  clampNonNeg ((totalWidth (e - start + 1) 3 + 2) * num - 2)

theorem ldiff_zero_right (m : Nat) : Nat.ldiff m 0 = m := by
  apply Nat.eq_of_testBit_eq
  intro i
  rw [Nat.testBit_ldiff]
  simp [Nat.zero_testBit]

theorem ldiff_zero_left (m : Nat) : Nat.ldiff 0 m = 0 := by
  apply Nat.eq_of_testBit_eq
  intro i
  rw [Nat.testBit_ldiff]
  simp [Nat.zero_testBit]

/-- The bit-trick clamp agrees with the arithmetic clamp `max x 0` on every
machine-width (64-bit) signed integer. -/
theorem clampNonNeg_eq_max (x : Int)
    (h1 : -9223372036854775808 ≤ x) (h2 : x < 9223372036854775808) :
    clampNonNeg x = max x 0 := by
  have hpow : (2 : Nat) ^ 63 = 9223372036854775808 := by norm_num
  unfold clampNonNeg
  rw [show ((intSize : Nat) : Int) = ((63 : Nat) : Int) from rfl]
  cases x with
  | ofNat m =>
    have hcast : Int.ofNat m = ((m : Nat) : Int) := rfl
    rw [hcast] at h2 ⊢
    have hm : m < 2 ^ 63 := by
      rw [hpow]
      omega
    have hsh : m >>> 63 = 0 := by
      rw [Nat.shiftRight_eq_div_pow]
      exact Nat.div_eq_of_lt hm
    have hshift : (((m : Nat) : Int)) >>> ((63 : Nat) : Int) = Int.ofNat 0 := by
      rw [Int.shiftRight_coe_nat, hsh]
      rfl
    rw [hshift]
    rw [show Int.lnot (Int.ofNat 0) = Int.negSucc 0 from rfl]
    rw [show Int.land (((m : Nat) : Int)) (Int.negSucc 0) = Int.ofNat (Nat.ldiff m 0) from rfl]
    rw [ldiff_zero_right]
    rw [max_eq_left (by omega : (0 : Int) ≤ ((m : Nat) : Int))]
    rfl
  | negSucc m =>
    have hm : m < 2 ^ 63 := by
      rw [hpow]
      have hx : (Int.negSucc m) = -(m + 1 : Int) := by simp [Int.negSucc_eq]
      omega
    have hsh : m >>> 63 = 0 := by
      rw [Nat.shiftRight_eq_div_pow]
      exact Nat.div_eq_of_lt hm
    have hshift : (Int.negSucc m) >>> ((63 : Nat) : Int) = Int.negSucc 0 := by
      rw [Int.shiftRight_negSucc, hsh]
    rw [hshift]
    rw [show Int.lnot (Int.negSucc 0) = Int.ofNat 0 from rfl]
    rw [show Int.land (Int.negSucc m) (Int.ofNat 0) = Int.ofNat (Nat.ldiff 0 m) from rfl]
    rw [ldiff_zero_left]
    have hneg : (Int.negSucc m) ≤ 0 := by
      rw [Int.negSucc_eq]
      omega
    rw [max_eq_right hneg]
    rfl

/-- C9: the bitwise clamp `x & ^(x >> (intBits-1))` used by `grow` equals
the arithmetic clamp `max x 0` for every machine-width (64-bit) signed
integer `x`, including the minimum representable integer. -/
theorem claim_C9_clamp_equals_max (x : Int)
    (h1 : -9223372036854775808 ≤ x) (h2 : x < 9223372036854775808) :
    clampNonNeg x = max x 0 :=
  clampNonNeg_eq_max x h1 h2

/-- Witness for C9 at the minimum representable 64-bit integer. -/
theorem claim_C9_clamp_equals_max_witness :
    clampNonNeg (-9223372036854775808) = max (-9223372036854775808 : Int) 0 ∧
      max (-9223372036854775808 : Int) 0 = 0 :=
  ⟨claim_C9_clamp_equals_max (-9223372036854775808) (by norm_num) (by norm_num),
    by decide⟩

/-- Decimal rendering of a (possibly negative) Go int, as produced by
`Buffer.WriteInt` (`strconv.Itoa`). -/
def decStrI (i : Int) : List Char :=
  if i < 0 then '-' :: decDigits i.natAbs else decDigits i.toNat

/-- The numeric tail `", $(base+1), $(base+2), ..."` written by the inner
loops of `writeGroup` (loop `i = 1` while `i < groupLen`) and
`WriteInterval` (loop `i = start` while `i < end`): `cnt` further numbers
following `base`. -/
def seqTail (base : Int) (cnt : Nat) : List Char :=
  ((List.range cnt).map (fun k : Nat => ", $".data ++ decStrI (base + (k : Int) + 1))).flatten

/-- Embedding of `writeGroup`: appends
`" ($p1, $p2, ..., $offset, $(offset+1), ..., $(offset+groupLen-1))"`.
(The Go function returns `groupLen`, which the caller adds to `offset`.) -/
def writeGroup (pfx : List Int) (offset groupLen : Int) : List Char :=
  " ($".data ++ (pfx.map (fun v => decStrI v ++ ", $".data)).flatten ++ decStrI offset
    ++ seqTail offset (groupLen - 1).toNat ++ [')']

/-- The `for groups--; groups > 0; groups--` loop of `WriteGroups`: each
iteration writes a bare comma and one more group, the offset advancing by
`groupLen` per group. -/
def groupsLoop (pfx : List Int) (offset groupLen : Int) : Nat → List Char
  | 0 => []
  | c + 1 =>
    [','] ++ writeGroup pfx offset groupLen
      ++ groupsLoop pfx (offset + groupLen) groupLen c

/-- Embedding of `WriteGroups`: validation, then the first group at
`offset`, then `groups - 1` further comma-separated groups (the loop body
runs `max (groups-1) 0` times).  `none` models the invalid-argument error;
nothing is appended on that path. -/
def WriteGroups (offset groupLen groups : Int) (pfx : List Int) : Option (List Char) :=
  if offset < 0 ∨ groups = 0 then none
  else some (writeGroup pfx offset groupLen ++
    groupsLoop pfx (offset + groupLen) groupLen (groups - 1).toNat)

/-- The `for num--; num > 0; num--` loop of `WriteInterval`: each iteration
appends `", ($start, ..., $end)"`. -/
def intervalLoop (start e : Int) : Nat → List Char
  | 0 => []
  | c + 1 =>
    ", ($".data ++ decStrI start ++ seqTail start (e - start).toNat ++ [')']
      ++ intervalLoop start e c

/-- Embedding of `WriteInterval`: validation, then `" ($start, ..., $end)"`
followed by `max (num-1) 0` repetitions of `", ($start, ..., $end)"`. -/
def WriteInterval (start e num : Int) : Option (List Char) :=
  if start < 0 ∨ start ≥ e ∨ num = 0 then none
  else some (" ($".data ++ decStrI start ++ seqTail start (e - start).toNat ++ [')']
    ++ intervalLoop start e (num - 1).toNat)

/-- Separator-joined list of items, the way the claims describe the output
format (`x1 SEP x2 SEP ... SEP xn`). -/
def sepJoin (sep : List Char) : List (List Char) → List Char
  | [] => []
  | [x] => x
  | x :: y :: xs => x ++ sep ++ sepJoin sep (y :: xs)

/-- A placeholder `$v`, as the claims render numbers. -/
def dollar (v : Int) : List Char := '$' :: decStrI v

/-- Claim C2's description of a single group: a space, then the
parenthesized `", "`-separated list of the prefix placeholders followed by
`len` consecutive placeholders starting at `first`. -/
def specGroup (pfx : List Int) (first : Int) (len : Nat) : List Char :=
  " (".data
    ++ sepJoin ", ".data
      ((pfx ++ (List.range len).map (fun k : Nat => first + (k : Int))).map dollar)
    ++ [')']

/-- Claim C2's description of the whole `WriteGroups` output: `groups`
groups, group `g` starting at `offset + g * groupLen`, separated by a bare
comma. -/
def specGroupsOut (offset groupLen : Int) (groups : Nat) (pfx : List Int) : List Char :=
  sepJoin [',']
    ((List.range groups).map
      (fun g : Nat => specGroup pfx (offset + (g : Int) * groupLen) groupLen.toNat))

/-- Claim C3's parenthesized list `($start, $(start+1), ..., $end)` (no
leading space). -/
def specParenList (start e : Int) : List Char :=
  '(' :: (sepJoin ", ".data
    (((List.range (e - start + 1).toNat).map (fun k : Nat => start + (k : Int))).map dollar)
    ++ [')'])

/-- Claim C3's description of the whole `WriteInterval` output: a leading
space and the parenthesized list, then `num - 1` further copies each
preceded by `", "`. -/
def specIntervalOut (start e num : Int) : List Char :=
  [' '] ++ specParenList start e
    ++ (List.replicate (num - 1).toNat (", ".data ++ specParenList start e)).flatten

theorem sepJoin_cons (sep x : List Char) (l : List (List Char)) (hl : l ≠ []) :
    sepJoin sep (x :: l) = x ++ sep ++ sepJoin sep l := by
  cases l with
  | nil => exact absurd rfl hl
  | cons y ys => rfl

theorem seqTail_succ (base : Int) (c : Nat) :
    seqTail base (c + 1) = ", $".data ++ decStrI (base + 1) ++ seqTail (base + 1) c := by
  unfold seqTail
  rw [List.range_succ_eq_map, List.map_cons, List.flatten_cons, List.map_map]
  have h0 : base + ((0 : Nat) : Int) + 1 = base + 1 := by norm_num
  have hfun : ((fun k : Nat => ", $".data ++ decStrI (base + (k : Int) + 1)) ∘ Nat.succ) =
      (fun k : Nat => ", $".data ++ decStrI (base + 1 + (k : Int) + 1)) := by
    funext k
    simp only [Function.comp]
    have harg : base + ((Nat.succ k : Nat) : Int) + 1 = base + 1 + k + 1 := by
      push_cast
      ring
    rw [harg]
  rw [h0, hfun, List.append_assoc]

theorem sepJoin_dollar_nums (first : Int) (c : Nat) :
    sepJoin ", ".data
      (((List.range (c + 1)).map (fun k : Nat => first + (k : Int))).map dollar) =
      '$' :: (decStrI first ++ seqTail first c) := by
  induction c generalizing first with
  | zero =>
    simp [sepJoin, seqTail, dollar]
  | succ c ih =>
    rw [List.range_succ_eq_map, List.map_cons, List.map_cons, List.map_map, List.map_map]
    have hfun : ((dollar ∘ fun k : Nat => first + (k : Int)) ∘ Nat.succ) =
        (dollar ∘ fun k : Nat => first + 1 + (k : Int)) := by
      funext k
      simp only [Function.comp]
      have harg : first + ((Nat.succ k : Nat) : Int) = first + 1 + k := by
        push_cast
        ring
      rw [harg]
    rw [hfun]
    have hne : (List.map (dollar ∘ fun k : Nat => first + 1 + (k : Int))
        (List.range (c + 1))) ≠ [] := by
      simp [List.range_eq_nil]
    rw [sepJoin_cons _ _ _ hne]
    rw [← List.map_map, ih (first + 1)]
    have h0 : first + ((0 : Nat) : Int) = first := by norm_num
    rw [seqTail_succ]
    simp [dollar, h0, List.append_assoc]

theorem sepJoin_dollar (pfx : List Int) (first : Int) (c : Nat) :
    sepJoin ", ".data
      ((pfx ++ (List.range (c + 1)).map (fun k : Nat => first + (k : Int))).map dollar) =
      '$' :: ((pfx.map (fun v => decStrI v ++ ", $".data)).flatten
        ++ decStrI first ++ seqTail first c) := by
  induction pfx with
  | nil => simpa using sepJoin_dollar_nums first c
  | cons p ps ih =>
    rw [List.cons_append, List.map_cons]
    have hne : ((ps ++ (List.range (c + 1)).map (fun k : Nat => first + (k : Int))).map dollar)
        ≠ [] := by
      simp [List.range_eq_nil]
    rw [sepJoin_cons _ _ _ hne, ih]
    simp [dollar, List.append_assoc]

theorem writeGroup_spec (pfx : List Int) (o gl : Int) (hgl : 1 ≤ gl) :
    writeGroup pfx o gl = specGroup pfx o gl.toNat := by
  have hc : gl.toNat = (gl - 1).toNat + 1 := by omega
  rw [specGroup, hc, sepJoin_dollar, writeGroup]
  have hsp : " ($".data = " (".data ++ ['$'] := rfl
  rw [hsp]
  simp [List.append_assoc]

theorem groupsLoop_spec (pfx : List Int) (gl : Int) (G : Int → List Char)
    (hG : ∀ o : Int, writeGroup pfx o gl = G o) :
    ∀ (cnt : Nat) (o : Int),
      writeGroup pfx o gl ++ groupsLoop pfx (o + gl) gl cnt =
        sepJoin [','] ((List.range (cnt + 1)).map (fun g : Nat => G (o + (g : Int) * gl))) := by
  intro cnt
  induction cnt with
  | zero =>
    intro o
    simp [groupsLoop, sepJoin, hG]
  | succ c ih =>
    intro o
    rw [List.range_succ_eq_map, List.map_cons, List.map_map]
    have hfun : ((fun g : Nat => G (o + (g : Int) * gl)) ∘ Nat.succ) =
        (fun g : Nat => G ((o + gl) + (g : Int) * gl)) := by
      funext g
      simp only [Function.comp]
      have harg : o + ((Nat.succ g : Nat) : Int) * gl = o + gl + (g : Int) * gl := by
        push_cast
        ring
      rw [harg]
    rw [hfun]
    have hne : (List.map (fun g : Nat => G ((o + gl) + (g : Int) * gl)) (List.range (c + 1)))
        ≠ [] := by
      simp [List.range_eq_nil]
    rw [sepJoin_cons _ _ _ hne, ← ih (o + gl)]
    have h0 : o + ((0 : Nat) : Int) * gl = o := by norm_num
    rw [h0, ← hG o]
    simp [groupsLoop, List.append_assoc]

/-- C2: for every `offset ≥ 0`, `groupLen ≥ 1`, `groups ≥ 1` and prefix
list, `WriteGroups` succeeds and appends exactly `groups` groups, group `g`
being `" ($p1, ..., $pk, $(offset+g*groupLen), ...,
$(offset+g*groupLen+groupLen-1))"`, consecutive groups separated by a bare
comma (each group already carries its leading space). -/
theorem claim_C2_WriteGroups_format (offset gl groups : Int) (pfx : List Int)
    (h1 : 0 ≤ offset) (h2 : 1 ≤ gl) (h3 : 1 ≤ groups) :
    WriteGroups offset gl groups pfx = some (specGroupsOut offset gl groups.toNat pfx) := by
  unfold WriteGroups
  rw [if_neg (by omega)]
  have hcnt : groups.toNat = (groups - 1).toNat + 1 := by omega
  rw [specGroupsOut, hcnt]
  exact congrArg some (groupsLoop_spec pfx gl (fun o => specGroup pfx o gl.toNat)
    (fun o => writeGroup_spec pfx o gl h2) ((groups - 1).toNat) offset)

/-- Witness for C2 at the two test vectors from buffer_test.go. -/
theorem claim_C2_WriteGroups_format_witness :
    WriteGroups 0 4 2 [] = some (specGroupsOut 0 4 (2 : Int).toNat []) ∧
      specGroupsOut 0 4 (2 : Int).toNat [] = " ($0, $1, $2, $3), ($4, $5, $6, $7)".data ∧
      WriteGroups 2 1 2 [1] = some (specGroupsOut 2 1 (2 : Int).toNat [1]) ∧
      specGroupsOut 2 1 (2 : Int).toNat [1] = " ($1, $2), ($1, $3)".data :=
  ⟨claim_C2_WriteGroups_format 0 4 2 [] (by norm_num) (by norm_num) (by norm_num),
    by decide,
    claim_C2_WriteGroups_format 2 1 2 [1] (by norm_num) (by norm_num) (by norm_num),
    by decide⟩

theorem specParenList_eq (start e : Int) (h2 : start < e) :
    specParenList start e =
      "($".data ++ decStrI start ++ seqTail start (e - start).toNat ++ [')'] := by
  have hc : (e - start + 1).toNat = (e - start).toNat + 1 := by omega
  rw [specParenList, hc, sepJoin_dollar_nums]
  simp [List.append_assoc]

theorem intervalLoop_spec (start e : Int) (h2 : start < e) :
    ∀ cnt : Nat, intervalLoop start e cnt =
      (List.replicate cnt (", ".data ++ specParenList start e)).flatten := by
  intro cnt
  induction cnt with
  | zero => simp [intervalLoop]
  | succ c ih =>
    rw [List.replicate_succ, List.flatten_cons, ← ih]
    have hs : ", ($".data = ", ".data ++ "($".data := rfl
    simp [intervalLoop, specParenList_eq start e h2, hs, List.append_assoc]

/-- C3: for every `start ≥ 0`, `end > start`, `num ≥ 1`, `WriteInterval`
succeeds and appends `" ($start, ..., $end)"` followed by `num - 1` further
copies of the same parenthesized list, each preceded by `", "`. -/
theorem claim_C3_WriteInterval_format (start e num : Int)
    (h1 : 0 ≤ start) (h2 : start < e) (h3 : 1 ≤ num) :
    WriteInterval start e num = some (specIntervalOut start e num) := by
  unfold WriteInterval
  rw [if_neg (by omega)]
  congr 1
  rw [specIntervalOut, specParenList_eq start e h2, intervalLoop_spec start e h2,
    specParenList_eq start e h2]
  have hs2 : " ($".data = [' '] ++ "($".data := rfl
  rw [hs2]
  simp [List.append_assoc]

/-- Witness for C3 at the two test vectors from buffer_test.go. -/
theorem claim_C3_WriteInterval_format_witness :
    WriteInterval 0 4 2 = some (specIntervalOut 0 4 2) ∧
      specIntervalOut 0 4 2 = " ($0, $1, $2, $3, $4), ($0, $1, $2, $3, $4)".data ∧
      WriteInterval 1 5 1 = some (specIntervalOut 1 5 1) ∧
      specIntervalOut 1 5 1 = " ($1, $2, $3, $4, $5)".data :=
  ⟨claim_C3_WriteInterval_format 0 4 2 (by norm_num) (by norm_num) (by norm_num),
    by decide,
    claim_C3_WriteInterval_format 1 5 1 (by norm_num) (by norm_num) (by norm_num),
    by decide⟩

/-- C5: `WriteGroups` errors (returning `none`, with nothing appended)
exactly when `offset < 0` or `groups = 0`, and `WriteInterval` errors
exactly when `start < 0`, `start ≥ end`, or `num = 0`.  In this embedding
the error result carries no output, which models that no bytes are written
on the error path. -/
theorem claim_C5_validation (offset gl groups start e num : Int) (pfx : List Int) :
    ((WriteGroups offset gl groups pfx) = none ↔ (offset < 0 ∨ groups = 0)) ∧
      ((WriteInterval start e num) = none ↔ (start < 0 ∨ start ≥ e ∨ num = 0)) := by
  constructor
  · unfold WriteGroups
    split <;> simp_all
  · unfold WriteInterval
    split <;> simp_all

/-- C7 counterexample: with `groupLen = 0` the group is NOT the degenerate
`"()"` holding only prefix placeholders — `writeGroup` always writes the
offset placeholder. `WriteGroups 5 0 2` (no prefix) yields `" ($5), ($5)"`,
not `" (), ()"`. -/
theorem claim_C7_counterexample :
    WriteGroups 5 0 2 [] = some " ($5), ($5)".data ∧
      " ($5), ($5)".data ≠ " (), ()".data := by
  constructor
  · decide
  · decide

/-- C7 amended: with `groupLen = 0` (offset ≥ 0, groups ≥ 1) `WriteGroups`
succeeds, and each group consists of the prefix placeholders followed by
one number — the offset, which never advances: `" ($p1, ..., $pk,
$offset)"` for every group, groups separated by a bare comma. -/
theorem claim_C7_amended_groupLen_zero (offset groups : Int) (pfx : List Int)
    (h1 : 0 ≤ offset) (h3 : 1 ≤ groups) :
    WriteGroups offset 0 groups pfx =
      some (sepJoin [',']
        ((List.range groups.toNat).map (fun _ : Nat => specGroup pfx offset 1))) := by
  unfold WriteGroups
  rw [if_neg (by omega)]
  congr 1
  have hcnt : groups.toNat = (groups - 1).toNat + 1 := by omega
  rw [hcnt]
  have hG : ∀ o : Int, writeGroup pfx o 0 = specGroup pfx o 1 := by
    intro o
    have h01 : writeGroup pfx o 0 = writeGroup pfx o 1 := by
      unfold writeGroup
      rw [show ((0 : Int) - 1).toNat = 0 from rfl, show ((1 : Int) - 1).toNat = 0 from rfl]
    rw [h01, writeGroup_spec pfx o 1 (by norm_num)]
    rfl
  rw [groupsLoop_spec pfx 0 (fun o => specGroup pfx o 1) hG ((groups - 1).toNat) offset]
  congr 1
  apply List.map_congr_left
  intro g _
  have : offset + (g : Int) * 0 = offset := by ring
  rw [this]

/-- Witness for the amended C7 at `WriteGroups 5 0 2` (no prefix). -/
theorem claim_C7_amended_groupLen_zero_witness :
    WriteGroups 5 0 2 [] =
      some (sepJoin [','] ((List.range (2 : Int).toNat).map
        (fun _ : Nat => specGroup [] 5 1))) ∧
      sepJoin [','] ((List.range (2 : Int).toNat).map (fun _ : Nat => specGroup [] 5 1)) =
        " ($5), ($5)".data :=
  ⟨claim_C7_amended_groupLen_zero 5 2 [] (by norm_num) (by norm_num), by decide⟩

/-- C10: negative repetition counts pass validation and behave exactly like
a count of 1 — the post-decrement loop `for groups--; groups > 0` runs zero
extra times, so exactly one group (resp. one interval repetition) is
written. -/
theorem claim_C10_negative_counts (offset gl groups start e num : Int) (pfx : List Int)
    (h1 : 0 ≤ offset) (hg : groups < 0) (h2 : 0 ≤ start) (h3 : start < e) (hn : num < 0) :
    WriteGroups offset gl groups pfx = WriteGroups offset gl 1 pfx ∧
      WriteInterval start e num = WriteInterval start e 1 := by
  constructor
  · unfold WriteGroups
    rw [if_neg (by omega), if_neg (by omega)]
    have hz : (groups - 1).toNat = 0 := by omega
    rw [hz, show ((1 : Int) - 1).toNat = 0 from rfl]
  · unfold WriteInterval
    rw [if_neg (by omega), if_neg (by omega)]
    have hz : (num - 1).toNat = 0 := by omega
    rw [hz, show ((1 : Int) - 1).toNat = 0 from rfl]

/-- Witness for C10 at `groups = -3` and `num = -2`. -/
theorem claim_C10_negative_counts_witness :
    (WriteGroups 0 2 (-3) [] = WriteGroups 0 2 1 [] ∧
      WriteInterval 0 1 (-2) = WriteInterval 0 1 1) ∧
      WriteGroups 0 2 (-3) [] = some " ($0, $1)".data :=
  ⟨claim_C10_negative_counts 0 2 (-3) 0 1 (-2) [] (by norm_num) (by norm_num)
    (by norm_num) (by norm_num) (by norm_num), by decide⟩

/-- Lifetime state of a pooled Buffer for the escape-hatch protocol: `len`
bytes of content, and the flag that is 1 (here `true`) exactly while an
`UnsafeBytes` view is outstanding (the spec's `Escaped` state). -/
structure BufState where
  len : Nat
  escaped : Bool
deriving DecidableEq

/-- Embedding of `PutBuffer`: panics (modelled as `none`) exactly when the
flag is set; otherwise resets the Buffer (length 0, flag clear) and returns
it to the pool. -/
def PutBuffer (b : BufState) : Option BufState :=
  if b.escaped then none else some ⟨0, false⟩

/-- Embedding of `UnsafeBytes`' effect on the Buffer state: an empty Buffer
is released immediately (through `PutBuffer`, whose panic propagates);
otherwise the atomic compare-and-swap 0→1 panics (`none`) when the flag was
already set, else sets the flag. -/
def UnsafeBytes (b : BufState) : Option BufState :=
  if b.len = 0 then PutBuffer b
  else if b.escaped then none else some ⟨b.len, true⟩

/-- C8: from the Normal state neither a first `UnsafeBytes` call nor
`PutBuffer` faults; on a non-empty Buffer the first `UnsafeBytes` sets the
flag, after which a second `UnsafeBytes` call faults and `PutBuffer` with
the view still outstanding faults. -/
theorem claim_C8_lifetime_faults (b : BufState) (hb : b.escaped = false) :
    ((UnsafeBytes b).isSome ∧ (PutBuffer b).isSome) ∧
      (b.len ≠ 0 →
        UnsafeBytes b = some ⟨b.len, true⟩ ∧
        UnsafeBytes ⟨b.len, true⟩ = none ∧
        PutBuffer ⟨b.len, true⟩ = none) := by
  constructor
  · constructor
    · unfold UnsafeBytes PutBuffer
      by_cases h : b.len = 0 <;> simp [h, hb]
    · simp [PutBuffer, hb]
  · intro hlen
    refine ⟨by simp [UnsafeBytes, hlen, hb], by simp [UnsafeBytes, hlen], by simp [PutBuffer]⟩

/-- Witness for C8 on a 3-byte Normal-state Buffer. -/
theorem claim_C8_lifetime_faults_witness :
    UnsafeBytes ⟨3, false⟩ = some ⟨3, true⟩ ∧ UnsafeBytes ⟨3, true⟩ = none ∧
      PutBuffer ⟨3, true⟩ = none ∧ (PutBuffer ⟨3, false⟩).isSome :=
  ⟨((claim_C8_lifetime_faults ⟨3, false⟩ rfl).2 (by decide)).1,
    ((claim_C8_lifetime_faults ⟨3, false⟩ rfl).2 (by decide)).2.1,
    ((claim_C8_lifetime_faults ⟨3, false⟩ rfl).2 (by decide)).2.2,
    (claim_C8_lifetime_faults ⟨3, false⟩ rfl).1.2⟩

/-- C6 counterexample: `10^17` is representable in a 64-bit signed integer
(int64 holds up to 19 digits), yet it lies beyond the table's last
threshold `10^17 - 1`, so `totalWidth` returns 0 for it. -/
theorem claim_C6_counterexample :
    totalWidth 100000000000000000 0 = 0 ∧
      (100000000000000000 : Int) < 9223372036854775808 := by
  constructor
  · decide
  · decide

/-- Positivity of the cumulative digit count. -/
theorem sumDigits_pos (m : Nat) (hm : 1 ≤ m) : 1 ≤ sumDigits m := by
  have hsplit := sumDigits_split 1 m hm
  have h1 : sumDigits 1 = 1 := by decide
  omega

/-- C6 amended: `totalWidth` returns a positive (hence nonzero) width for
every positive `n` up to the table maximum `10^17 - 1` — the table covers
1- through 17-digit numbers, not 19 — and returns 0 for every `n` beyond
that threshold, even though such `n` are still int64-representable. -/
theorem claim_C6_amended_table_range (n add : Int) (hadd : 0 ≤ add) :
    (1 ≤ n → n ≤ 99999999999999999 → 0 < totalWidth n add) ∧
      (99999999999999999 < n → totalWidth n add = 0) := by
  constructor
  · intro h1 h2
    rw [totalWidth_eq_sum n add h1 h2]
    have hpos : 1 ≤ sumDigits n.toNat := sumDigits_pos _ (by omega)
    have hpos' : (1 : Int) ≤ (sumDigits n.toNat : Int) := by exact_mod_cast hpos
    have hna : 0 ≤ n * add := mul_nonneg (by omega) hadd
    linarith
  · intro hgt
    unfold totalWidth
    rw [if_neg (by omega), if_neg (by omega), if_neg (by omega)]
    have hcond : (cache.getD (cache.length - 1) (0, 0)).1 < n := by
      rw [show cache.length - 1 = 17 from by decide, cache_getD 17 (le_refl _)]
      show ((10 : Int) ^ 17 - 1) < n
      have h17 : ((10 : Int) ^ 17 - 1) = 99999999999999999 := by norm_num
      rw [h17]
      exact hgt
    rw [if_pos hcond]

/-- Witness for the amended C6 at the table maximum and one past it. -/
theorem claim_C6_amended_table_range_witness :
    0 < totalWidth 99999999999999999 0 ∧ totalWidth 100000000000000001 0 = 0 :=
  ⟨(claim_C6_amended_table_range 99999999999999999 0 (by norm_num)).1 (by norm_num)
      (by norm_num),
    (claim_C6_amended_table_range 100000000000000001 0 (by norm_num)).2 (by norm_num)⟩

/-- C4 counterexample: the spec's own example call `WriteInterval(0, 4, 2)`
writes 43 bytes while `grow` reserves only 42 bytes of additional capacity
— the preallocation is not an upper bound on the written length. -/
theorem claim_C4_counterexample :
    (WriteInterval 0 4 2).map List.length = some 43 ∧ growReserve 0 4 2 = 42 ∧
      ¬ (43 ≤ 42) := by
  refine ⟨by decide, ?_, by decide⟩
  have h42 : (totalWidth (4 - 0 + 1) 3 + 2) * 2 - 2 = 42 := by decide
  unfold growReserve
  rw [h42, clampNonNeg_eq_max 42 (by norm_num) (by norm_num)]
  decide

theorem sumDigits_succ (m : Nat) :
    sumDigits (m + 1) = sumDigits m + numDigits (m + 1) := by
  unfold sumDigits
  rw [Finset.sum_Icc_succ_top (by omega)]

theorem seqTail_length :
    ∀ (c : Nat) (base : Int), 0 ≤ base →
      ((seqTail base c).length : Int) =
        3 * c + ((sumDigits (base + (c : Int)).toNat : Nat) : Int)
          - ((sumDigits base.toNat : Nat) : Int) := by
  intro c
  induction c with
  | zero =>
    intro base hb
    simp [seqTail]
  | succ c ih =>
    intro base hb
    rw [seqTail_succ]
    simp only [List.length_append]
    push_cast
    rw [ih (base + 1) (by omega)]
    have hdec : ((decStrI (base + 1)).length : Int) = (numDigits (base + 1).toNat : Int) := by
      unfold decStrI
      rw [if_neg (by omega)]
      rfl
    rw [hdec]
    have hstep : sumDigits (base + 1).toNat =
        sumDigits base.toNat + numDigits (base + 1).toNat := by
      have harg : (base + 1).toNat = base.toNat + 1 := by omega
      rw [harg, sumDigits_succ]
    have harg2 : base + 1 + (c : Int) = base + ((c + 1 : Nat) : Int) := by
      push_cast
      ring
    rw [harg2] at *
    rw [hstep]
    push_cast
    have hdata : ((", $".data).length : Int) = 3 := rfl
    rw [hdata]
    ring

theorem intervalLoop_length (start e : Int) :
    ∀ cnt : Nat, ((intervalLoop start e cnt).length : Int) =
      cnt * (5 + ((decStrI start).length : Int)
        + ((seqTail start (e - start).toNat).length : Int)) := by
  intro cnt
  induction cnt with
  | zero => simp [intervalLoop]
  | succ c ih =>
    simp only [intervalLoop, List.length_append]
    rw [show ((", ($".data).length : Nat) = 4 from rfl,
      show (([')'] : List Char).length : Nat) = 1 from rfl]
    push_cast
    rw [ih]
    ring

/-- C4 amended: the reservation computed by `grow` is an estimate, not an
upper bound — valid calls can write more bytes than reserved (see the
counterexample: the spec's own `WriteInterval(0, 4, 2)` example writes 43
bytes against 42 reserved, and larger starts, offsets or prefixes make the
overrun arbitrarily large).  In the canonical `start = 1` case (with `end`
inside the width table's range and the reservation arithmetic within
int64, as on the real machine) the written length exceeds the reserved
capacity by exactly 1 byte: the first repetition's leading space, which the
`+2` for `"()"` in `grow` does not account for. -/
theorem claim_C4_amended_interval_overrun (e num : Int) (h2 : 1 < e)
    (h2' : e ≤ 99999999999999999) (h3 : 1 ≤ num)
    (hfit : (totalWidth e 3 + 2) * num ≤ 9223372036854775807) :
    (WriteInterval 1 e num).map (fun cs => (cs.length : Int)) =
      some (growReserve 1 e num + 1) := by
  unfold WriteInterval
  rw [if_neg (by omega)]
  simp only [Option.map_some', Option.some.injEq]
  have htw : totalWidth e 3 = (sumDigits e.toNat : Int) + e * 3 :=
    totalWidth_eq_sum e 3 (by omega) h2'
  have hspos : (1 : Int) ≤ (sumDigits e.toNat : Int) := by
    exact_mod_cast sumDigits_pos e.toNat (by omega)
  have hx0 : 0 ≤ (totalWidth e 3 + 2) * num - 2 := by
    have h9 : (9 : Int) ≤ totalWidth e 3 + 2 := by
      rw [htw]
      linarith
    nlinarith
  have hgr : growReserve 1 e num = (totalWidth e 3 + 2) * num - 2 := by
    unfold growReserve
    rw [show e - 1 + 1 = e from by ring]
    rw [clampNonNeg_eq_max _ (by omega) (by omega)]
    rw [max_eq_left hx0]
  rw [hgr]
  simp only [List.length_append]
  have hsp : ((" ($".data).length : Nat) = 3 := rfl
  have hcl : (([')'] : List Char).length : Nat) = 1 := rfl
  have hd1 : ((decStrI 1).length : Nat) = 1 := rfl
  rw [hsp, hcl, hd1]
  push_cast
  rw [intervalLoop_length, seqTail_length ((e - 1).toNat) 1 (by norm_num)]
  have hc1 : (((e - 1).toNat : Nat) : Int) = e - 1 := Int.toNat_of_nonneg (by omega)
  rw [hc1]
  rw [show (1 : Int) + (e - 1) = e from by ring]
  have hn1 : (((num - 1).toNat : Nat) : Int) = num - 1 := Int.toNat_of_nonneg (by omega)
  rw [hn1]
  have hs1 : sumDigits (1 : Int).toNat = 1 := by decide
  rw [hs1, hd1, htw]
  push_cast
  ring

/-- Witness for the amended C4 at `WriteInterval 1 4 2`: 35 bytes written,
34 reserved. -/
theorem claim_C4_amended_interval_overrun_witness :
    (WriteInterval 1 4 2).map (fun cs => (cs.length : Int)) =
        some (growReserve 1 4 2 + 1) ∧
      (WriteInterval 1 4 2).map (fun cs => (cs.length : Int)) = some 35 :=
  ⟨claim_C4_amended_interval_overrun 4 2 (by norm_num) (by norm_num) (by norm_num)
      (by decide),
    by decide⟩
